import Mathlib

set_option maxRecDepth 20000

/-!
Shallow embedding of the `font` package of `wosly2/tiny-font`.

The repository has two variants of the same component:
* `src/font.go` — the "renderer" variant: `loadGlyph`, `renderString`
  (immediate draws through `renderer.Copy`), `newFont`, `makeDefaultFont`.
* `src/unnamed/part_000` — the "surface" variant: `loadGlyph` (identical
  text), `RenderString` (blits into a freshly allocated `sdl.Surface`),
  `getStringLen`, `NewFont`, `MakeDefaultFont`.

Modelling conventions:
* Go strings are modelled as `List Char` (lists of runes).  All character
  sets occurring in this repository are ASCII, where rune positions and
  byte positions coincide; where Go works byte-wise (`strings.IndexRune`
  returns a byte index, `getStringLen` reads `text[i]`, the first byte of
  the rune starting at `i`) the model is byte-precise: `indexRune?`
  returns the byte offset and `firstByteRune` maps a rune to the rune
  denoted by its leading UTF-8 byte.
* A Go runtime panic (index out of range on `CharWidths`, integer divide
  by zero on `% GridWidth`) is modelled as `none`; a function that cannot
  panic returns `some` of its result.
* `sdl.Rect` has `int32` fields.  Every quantity produced here is far
  below `2^31` for the atlases and tables of this repository, so the
  `int32(...)` conversions are value-preserving and modelled as the
  identity on `Int`.
* The SDL resources (`*sdl.Texture`, `*sdl.Surface`, the renderer) carry
  no data relevant to the claims; draw/blit calls are recorded as `Draw`
  events, and `SetColorMod` (whose arguments do not influence geometry)
  is not recorded.  A failed `renderer.Copy` is logged and the loop
  continues, so it does not affect control flow; `sdl.CreateRGBSurface`
  failure would panic, and is assumed to succeed in the model.
-/

/-- Model of `sdl.Rect` (fields `X Y W H int32`). -/
structure Rect where
  X : Int
  Y : Int
  W : Int
  H : Int
deriving DecidableEq

/-- Model of the Go struct `Font` (both variants declare the same fields;
the `Atlas` resource handle is omitted, see the module comment). -/
structure Font where
  GridWidth  : Int
  CharSize   : Int × Int
  CharSet    : List Char
  CharWidths : List Int
  NewlinePad : Int
  LetterPad  : Int
deriving DecidableEq

/-- One recorded draw call: the character drawn, the atlas source
rectangle and the destination rectangle. -/
structure Draw where
  char : Char
  src  : Rect
  dst  : Rect
deriving DecidableEq

/-- Model of the `sdl.Surface` returned by the surface variant's
`RenderString`: its dimensions and the blits performed into it. -/
structure Surface where
  W : Int
  H : Int
  blits : List Draw
deriving DecidableEq

/-- `strings.IndexRune s r`: byte index of the first occurrence of rune
`r` in `s`, `none` standing for Go's `-1`. -/
def indexRune? : List Char → Char → Option Nat
  | [], _ => none
  | c :: cs, r =>
    if c = r then some 0
    else (indexRune? cs r).map (fun i => c.utf8Size + i)

/-- Total UTF-8 byte length of a string (`len(s)` in Go). -/
def utf8Len (s : List Char) : Nat := (s.map Char.utf8Size).sum

/-- The rune denoted by the leading UTF-8 byte of `c`: in Go,
`text[i]` yields the first byte of the rune starting at byte `i`, and
`rune(text[i])` is that byte's value.  For ASCII characters this is the
character itself. -/
def firstByteRune (c : Char) : Char :=
  if c.utf8Size = 1 then c
  else if c.utf8Size = 2 then Char.ofNat (0xC0 + c.toNat / 64)
  else if c.utf8Size = 3 then Char.ofNat (0xE0 + c.toNat / 4096)
  else Char.ofNat (0xF0 + c.toNat / 262144)

/-- `(*Font) loadGlyph(char rune) sdl.Rect` (textually identical in both
variants).  The found-branch arithmetic is Go's `%` and `/`; since the
index is nonnegative these agree with `Int.emod` and `Int.ediv` for every
nonzero divisor, and `% 0` / `/ 0` panic in Go (modelled as `none`). -/
def loadGlyph (font : Font) (char : Char) : Option Rect :=
  match indexRune? font.CharSet char with
  | none => some ⟨0, 0, 0, 0⟩
  | some index =>
    if font.GridWidth = 0 then none
    else
      match font.CharWidths[index]? with
      | none => none
      | some width =>
        some ⟨Int.emod (index : Int) font.GridWidth * (font.CharSize.1 + 1),
              Int.ediv (index : Int) font.GridWidth * (font.CharSize.2 + 1),
              width, font.CharSize.2⟩

/-- The per-character loop shared (textually, up to the draw primitive:
`renderer.Copy` with a logged error versus `font.Atlas.Blit` with the
error discarded) by `renderString` of the renderer variant and
`RenderString` of the surface variant.  `x0` is the x the cursor resets
to on a newline: the caller-supplied start `x` in the renderer variant,
`0` in the surface variant.  Returns the ordered list of draw calls, or
`none` if the loop panics. -/
def renderLoop (font : Font) : List Char → Int → Int → Int → Option (List Draw)
  | [], _, _, _ => some []
  | c :: rest, x0, cx, cy =>
    if c = '\n' then
      renderLoop font rest x0 x0 (cy + font.CharSize.2 + font.NewlinePad)
    else
      match loadGlyph font c with
      | none => none
      | some src =>
        if src.W = 0 ∨ src.H = 0 then
          renderLoop font rest x0 cx cy
        else
          match (indexRune? font.CharSet c).bind (fun i => font.CharWidths[i]?) with
          | none => none
          | some w =>
            (renderLoop font rest x0 (cx + w + font.LetterPad) cy).map
              (fun draws => ⟨c, src, ⟨cx, cy, src.W, src.H⟩⟩ :: draws)

/-- `(*Font) renderString(renderer, text, x, y, r, g, b)` of the renderer
variant (`src/font.go`): cursor starts at the caller-supplied `(x, y)`
and newlines reset the horizontal cursor to `x`. -/
def renderString (font : Font) (text : List Char) (x y : Int) : Option (List Draw) :=
  renderLoop font text x x y

/-- `(Font) getStringLen(text string) int` of the surface variant:
`for i := range text` visits the starting byte index of each rune and
`rune(text[i])` is the rune's leading byte; the width-table access
`font.CharWidths[strings.IndexRune(...)]` has no `-1` guard, so an
absent character (index `-1`) panics — modelled as `none`. -/
def getStringLen (font : Font) : List Char → Option Int
  | [] => some 0
  | c :: rest =>
    match (indexRune? font.CharSet (firstByteRune c)).bind (fun i => font.CharWidths[i]?) with
    | none => none
    | some w => (getStringLen font rest).map (fun ln => w + font.LetterPad + ln)

/-- `(*Font) RenderString(text, r, g, b) *sdl.Surface` of the surface
variant (`src/unnamed/part_000`): measures the string with
`getStringLen` (evaluated before the surface is created; its panic
propagates), allocates a surface of that width and height
`font.CharSize[1]`, then runs the shared per-character loop with the
cursor starting at `(0, 0)`. -/
def RenderString (font : Font) (text : List Char) : Option Surface :=
  match getStringLen font text with
  | none => none
  | some ln =>
    match renderLoop font text 0 0 0 with
    | none => none
    | some blits => some ⟨ln, font.CharSize.2, blits⟩

/-- The advance width the width table assigns to a character: its entry
at the character's `IndexRune` position, if both exist. -/
def charWidth? (font : Font) (c : Char) : Option Int :=
  (indexRune? font.CharSet c).bind (fun i => font.CharWidths[i]?)

/-- The 95-character set passed to the constructor by both variants'
default-font builders (identical literals in `makeDefaultFont` and
`MakeDefaultFont`). -/
def defaultCharSet : List Char :=
  " !\x22#$%&\x27()*+,-./0123456789:;<=>?@ABCDEFGHIJKLMNOPQRSTUVWXYZ[]\x5c^_\x60abcdefghijklmnopqrstuvwxyz\x7b\x7d|~".toList

/-- The width-table literal of `makeDefaultFont` (`src/font.go`, renderer
variant). -/
def defaultWidthsR : List Int :=
  [3, 1, 3, 5, 5, 5, 5, 1, 2, 2, 3, 3, 1, 3, 1, 5,
   5, 3, 5, 5, 5, 5, 5, 5, 5, 5,
   1, 1, 3, 3, 3, 4, 5,
   5, 5, 5, 5, 5, 5, 5, 5, 5, 5, 5, 4, 5, 5, 5, 5, 5, 5, 5, 5, 5, 5, 5, 5, 5, 5,
   2, 2, 5, 3, 3, 2,
   5, 5, 4, 5, 5, 5, 5, 5, 1, 4, 4, 3, 5, 4, 4, 5, 5, 4, 4, 4, 5, 3, 5, 3, 4, 4,
   3, 3, 1, 4]

/-- The width-table literal of `MakeDefaultFont` (`src/unnamed/part_000`,
surface variant).  Its sixth lowercase entry (the one for `f`) is `4`
where the renderer variant has `5`. -/
def defaultWidthsS : List Int :=
  [3, 1, 3, 5, 5, 5, 5, 1, 2, 2, 3, 3, 1, 3, 1, 5,
   5, 3, 5, 5, 5, 5, 5, 5, 5, 5,
   1, 1, 3, 3, 3, 4, 5,
   5, 5, 5, 5, 5, 5, 5, 5, 5, 5, 5, 4, 5, 5, 5, 5, 5, 5, 5, 5, 5, 5, 5, 5, 5, 5,
   2, 2, 5, 3, 3, 2,
   5, 5, 4, 5, 5, 4, 5, 5, 1, 4, 4, 3, 5, 4, 4, 5, 5, 4, 4, 4, 5, 3, 5, 3, 4, 4,
   3, 3, 1, 4]

/-- The `Font` record built by `makeDefaultFont` (renderer variant):
grid width 10, cell size `{5, 11}`, `LetterPad` 1, `NewlinePad` 5, as
fixed by `newFont`. -/
def defaultFontR : Font :=
  ⟨10, (5, 11), defaultCharSet, defaultWidthsR, 5, 1⟩

/-- The `Font` record built by `MakeDefaultFont` (surface variant). -/
def defaultFontS : Font :=
  ⟨10, (5, 11), defaultCharSet, defaultWidthsS, 5, 1⟩

/-- The two-character example font of the specification: charset `AB`,
width table `[5, 5]`, grid width 10, cell size `(5, 11)`, and the pads
`newFont` assigns (`LetterPad` 1, `NewlinePad` 5). -/
def abFont : Font :=
  ⟨10, (5, 11), ['A', 'B'], [5, 5], 5, 1⟩

/-- A font whose character `Z` is present with width-table entry `0`. -/
def zFont : Font :=
  ⟨10, (5, 11), ['A', 'Z'], [5, 0], 5, 1⟩

/-- A font with `GridWidth = 0`. -/
def gridZeroFont : Font :=
  ⟨0, (5, 11), ['A'], [5], 5, 1⟩

/-- A font whose width table is shorter than its character set. -/
def shortFont : Font :=
  ⟨10, (5, 11), ['A', 'B'], [5], 5, 1⟩

/-- The advance widths the width table assigns to the characters of a
string, defined when every character has one. -/
def stringWidths? (font : Font) : List Char → Option (List Int)
  | [] => some []
  | c :: rest =>
    (charWidth? font c).bind fun w => (stringWidths? font rest).map (fun ws => w :: ws)

theorem utf8Len_nil : utf8Len [] = 0 := rfl

theorem utf8Len_cons (a : Char) (as : List Char) :
    utf8Len (a :: as) = a.utf8Size + utf8Len as := by
  simp [utf8Len]

theorem indexRune?_eq_none_iff (s : List Char) (c : Char) :
    indexRune? s c = none ↔ c ∉ s := by
  induction s with
  | nil => simp [indexRune?]
  | cons a as ih =>
    by_cases h : a = c
    · subst h
      simp [indexRune?]
    · simp [indexRune?, h, ih, Ne.symm h]

theorem isSome_indexRune?_of_mem {s : List Char} {c : Char} (h : c ∈ s) :
    (indexRune? s c).isSome := by
  rcases ho : indexRune? s c with _ | i
  · exact absurd ((indexRune?_eq_none_iff s c).mp ho) (not_not_intro h)
  · rfl

theorem mem_of_indexRune?_eq_some {s : List Char} {c : Char} {i : Nat}
    (h : indexRune? s c = some i) : c ∈ s := by
  by_contra hc
  rw [(indexRune?_eq_none_iff s c).mpr hc] at h
  exact Option.noConfusion h

theorem lt_utf8Len_of_indexRune? {s : List Char} {c : Char} {i : Nat}
    (h : indexRune? s c = some i) : i < utf8Len s := by
  induction s generalizing i with
  | nil => exact absurd h (by simp [indexRune?])
  | cons a as ih =>
    by_cases hac : a = c
    · simp [indexRune?, hac] at h
      subst h
      have := Char.utf8Size_pos a
      simp [utf8Len_cons]
      omega
    · simp [indexRune?, hac] at h
      obtain ⟨j, hj, rfl⟩ := h
      have := ih hj
      simp [utf8Len_cons]
      omega

theorem indexRune?_getElem (s : List Char) (hA : ∀ c ∈ s, c.utf8Size = 1)
    (hnd : s.Nodup) (k : Nat) (hk : k < s.length) :
    indexRune? s s[k] = some k := by
  induction s generalizing k with
  | nil => simp at hk
  | cons a as ih =>
    rcases k with _ | j
    · simp [indexRune?]
    · have hj : j < as.length := by simpa using hk
      have hmem : as[j] ∈ as := List.getElem_mem hj
      have hne : ¬a = (a :: as)[j + 1] := by
        simp only [List.getElem_cons_succ]
        intro he
        exact (List.nodup_cons.mp hnd).1 (he ▸ hmem)
      have hrec := ih (fun c hc => hA c (List.mem_cons_of_mem a hc))
        (List.nodup_cons.mp hnd).2 j hj
      simp only [indexRune?, List.getElem_cons_succ] at hne ⊢
      rw [if_neg hne, hrec]
      simp [hA a (List.mem_cons_self a as)]
      omega

theorem firstByteRune_of_ascii {c : Char} (h : c.utf8Size = 1) :
    firstByteRune c = c := by
  simp [firstByteRune, h]

/-- C1: for every `Font` with positive `GridWidth` and a width table
covering `CharSet`, and every character found in `CharSet` at index `i`,
`loadGlyph` returns the rectangle
`((i mod GridWidth) * (cellWidth + 1), (i div GridWidth) * (cellHeight + 1),
CharWidths[i], cellHeight)`. -/
theorem c1_loadGlyph_formula (font : Font) (c : Char) (i : Nat)
    (hg : 1 ≤ font.GridWidth)
    (hw : utf8Len font.CharSet ≤ font.CharWidths.length)
    (hi : indexRune? font.CharSet c = some i) :
    loadGlyph font c =
      some ⟨Int.emod (i : Int) font.GridWidth * (font.CharSize.1 + 1),
            Int.ediv (i : Int) font.GridWidth * (font.CharSize.2 + 1),
            font.CharWidths.getD i 0, font.CharSize.2⟩ := by
  have hlt : i < font.CharWidths.length :=
    lt_of_lt_of_le (lt_utf8Len_of_indexRune? hi) hw
  have hget : font.CharWidths[i]? = some (font.CharWidths.getD i 0) := by
    rw [List.getElem?_eq_getElem hlt, List.getD_eq_getElem _ _ hlt]
  have hg0 : ¬font.GridWidth = 0 := by omega
  simp only [loadGlyph, hi, hg0, hget, if_false, ite_false]

/-- C1 witness: with charset `AB`, width table `[5, 5]`, grid width 10 and
cell size `(5, 11)`, `loadGlyph` of `B` is the rectangle `(6, 0, 5, 11)`. -/
theorem c1_witness : loadGlyph abFont 'B' = some ⟨6, 0, 5, 11⟩ := by
  have h := c1_loadGlyph_formula abFont 'B' 1 (by decide) (by decide) (by decide)
  rw [h]
  decide

/-- C4: for every character absent from `CharSet`, `loadGlyph` returns the
zero-width, zero-height rectangle (and cannot panic there). -/
theorem c4_absent_zero_rect (font : Font) (c : Char) (h : c ∉ font.CharSet) :
    loadGlyph font c = some ⟨0, 0, 0, 0⟩ := by
  simp only [loadGlyph, (indexRune?_eq_none_iff font.CharSet c).mpr h]

/-- C4 witness: the default font does not contain a tab character, and
`loadGlyph` maps it to the zero rectangle. -/
theorem c4_witness : loadGlyph defaultFontS '\t' = some ⟨0, 0, 0, 0⟩ :=
  c4_absent_zero_rect defaultFontS '\t' (by decide)

/-- C3: whenever every character of the (ASCII) string has an advance
width in the width table, `getStringLen` returns the sum over all
characters of `(advance width + horizontal letter pad)`. -/
theorem c3_getStringLen_sum (font : Font) (text : List Char) (ws : List Int)
    (hA : ∀ c ∈ text, c.utf8Size = 1)
    (hws : stringWidths? font text = some ws) :
    getStringLen font text = some ((ws.map (fun w => w + font.LetterPad)).sum) := by
  induction text generalizing ws with
  | nil =>
    simp [stringWidths?] at hws
    subst hws
    simp [getStringLen]
  | cons c rest ih =>
    simp [stringWidths?, Option.bind_eq_some, Option.map_eq_some'] at hws
    obtain ⟨w, hw, ws', hws', rfl⟩ := hws
    have hfb := firstByteRune_of_ascii (hA c (List.mem_cons_self c rest))
    have hrec := ih ws' (fun d hd => hA d (List.mem_cons_of_mem c hd)) hws'
    have hcw : (indexRune? font.CharSet c).bind (fun i => font.CharWidths[i]?) = some w := hw
    simp only [getStringLen, hfb, hcw, hrec, Option.map_some']
    simp [add_assoc]

/-- C3 witness: measuring `AB` with width table `[5, 5]` and horizontal
pad 1 yields `(5 + 1) + (5 + 1) = 12`. -/
theorem c3_witness : getStringLen abFont ['A', 'B'] = some 12 := by
  have h := c3_getStringLen_sum abFont ['A', 'B'] [5, 5] (by decide) (by decide)
  rw [h]
  decide

/-- C8: string measurement is additive over concatenation: for newline-free
strings whose measurement is defined, the measure of `s ++ t` is the sum of
the measures of `s` and `t`. -/
theorem c8_getStringLen_additive (font : Font) (s t : List Char) (ws wt : Int)
    (hns : '\n' ∉ s) (_hnt : '\n' ∉ t)
    (hs : getStringLen font s = some ws) (ht : getStringLen font t = some wt) :
    getStringLen font (s ++ t) = some (ws + wt) := by
  induction s generalizing ws with
  | nil =>
    simp [getStringLen] at hs
    subst hs
    simpa using ht
  | cons c rest ih =>
    rcases hm : (indexRune? font.CharSet (firstByteRune c)).bind
        (fun i => font.CharWidths[i]?) with _ | w
    · rw [getStringLen, hm] at hs
      exact Option.noConfusion hs
    · rw [getStringLen, hm, Option.map_eq_some'] at hs
      obtain ⟨ln, hln, rfl⟩ := hs
      have hrec := ih ln (fun hmem => hns (List.mem_cons_of_mem c hmem)) hln
      rw [List.cons_append, getStringLen, hm, hrec]
      simp [add_assoc]

/-- C8 witness: measuring `A ++ B` equals measuring `A` plus measuring
`B` (each `5 + 1 = 6`). -/
theorem c8_witness : getStringLen abFont (['A'] ++ ['B']) = some (6 + 6) :=
  c8_getStringLen_additive abFont ['A'] ['B'] 6 6 (by decide) (by decide)
    (by decide) (by decide)

/-- C6: in immediate-draw mode a newline resets the horizontal cursor to
the starting x, advances the vertical cursor by `cellHeight + verticalPad`
and issues no draw call; concretely, rendering the string `A`, newline,
`B` at `(10, 10)` with cell height 11 and vertical pad 5 draws `A` at
`(10, 10)` and `B` at `(10, 26)`. -/
theorem c6_newline_reset :
    (∀ (font : Font) (rest : List Char) (x0 cx cy : Int),
        renderLoop font ('\n' :: rest) x0 cx cy =
          renderLoop font rest x0 x0 (cy + font.CharSize.2 + font.NewlinePad)) ∧
    renderString abFont ['A', '\n', 'B'] 10 10 =
      some [⟨'A', ⟨0, 0, 5, 11⟩, ⟨10, 10, 5, 11⟩⟩,
            ⟨'B', ⟨6, 0, 5, 11⟩, ⟨10, 26, 5, 11⟩⟩] := by
  constructor
  · intro font rest x0 cx cy
    simp only [renderLoop, eq_self_iff_true, if_true]
  · decide

/-- C7: whenever the surface variant's `RenderString` returns a surface,
that surface's width is the measured string width and its height is
`cellHeight` — independent of how many lines the input has. -/
theorem c7_surface_dimensions (font : Font) (text : List Char) (surf : Surface)
    (h : RenderString font text = some surf) :
    getStringLen font text = some surf.W ∧ surf.H = font.CharSize.2 := by
  unfold RenderString at h
  rcases hl : getStringLen font text with _ | ln <;> rw [hl] at h
  · exact Option.noConfusion h
  · rcases hr : renderLoop font text 0 0 0 with _ | blits <;> rw [hr] at h
    · exact Option.noConfusion h
    · obtain rfl := (Option.some.inj h).symm
      exact ⟨rfl, rfl⟩

/-- C7 witness: rendering `AB` with the example font yields a surface of
width 12 (the measured width) and height 11 (the cell height). -/
theorem c7_witness :
    getStringLen abFont ['A', 'B'] =
      some (Surface.mk 12 11
        [⟨'A', ⟨0, 0, 5, 11⟩, ⟨0, 0, 5, 11⟩⟩,
         ⟨'B', ⟨6, 0, 5, 11⟩, ⟨6, 0, 5, 11⟩⟩]).W ∧
    (Surface.mk 12 11
        [⟨'A', ⟨0, 0, 5, 11⟩, ⟨0, 0, 5, 11⟩⟩,
         ⟨'B', ⟨6, 0, 5, 11⟩, ⟨6, 0, 5, 11⟩⟩]).H = abFont.CharSize.2 :=
  c7_surface_dimensions abFont ['A', 'B'] _ (by decide)

/-- C9: `loadGlyph` is total for fonts with `GridWidth ≥ 1` and a width
table covering the byte length of `CharSet`; with `GridWidth = 0` it
panics on every character present in `CharSet`, and with a width table
shorter than an (ASCII, duplicate-free) `CharSet` it panics on the
character sitting at the first uncovered index. -/
theorem c9_loadGlyph_totality :
    (∀ (font : Font) (c : Char), 1 ≤ font.GridWidth →
        utf8Len font.CharSet ≤ font.CharWidths.length →
        (loadGlyph font c).isSome) ∧
    (∀ (font : Font) (c : Char), font.GridWidth = 0 → c ∈ font.CharSet →
        loadGlyph font c = none) ∧
    (∀ (font : Font) (hlen : font.CharWidths.length < font.CharSet.length),
        (∀ c ∈ font.CharSet, c.utf8Size = 1) → font.CharSet.Nodup →
        font.CharSet.get ⟨font.CharWidths.length, hlen⟩ ∈ font.CharSet ∧
        loadGlyph font (font.CharSet.get ⟨font.CharWidths.length, hlen⟩) = none) := by
  refine ⟨?_, ?_, ?_⟩
  · intro font c hg hw
    rcases hi : indexRune? font.CharSet c with _ | i
    · simp only [loadGlyph, hi, Option.isSome_some]
    · have hlt : i < font.CharWidths.length :=
        lt_of_lt_of_le (lt_utf8Len_of_indexRune? hi) hw
      have hg0 : ¬font.GridWidth = 0 := by omega
      simp only [loadGlyph, hi, hg0, List.getElem?_eq_getElem hlt, if_false,
        ite_false, Option.isSome_some]
  · intro font c hg hc
    have hs := isSome_indexRune?_of_mem hc
    rcases hi : indexRune? font.CharSet c with _ | i
    · rw [hi] at hs
      exact absurd hs (by simp)
    · simp only [loadGlyph, hi, hg, if_pos rfl, ite_true]
  · intro font hlen hA hnd
    have hget : font.CharSet.get ⟨font.CharWidths.length, hlen⟩ =
        font.CharSet[font.CharWidths.length] := rfl
    have hi := indexRune?_getElem font.CharSet hA hnd font.CharWidths.length hlen
    have hnone : font.CharWidths[font.CharWidths.length]? = none :=
      List.getElem?_eq_none (le_refl _)
    refine ⟨List.get_mem _ _ hlen, ?_⟩
    rw [hget]
    by_cases hg : font.GridWidth = 0
    · simp only [loadGlyph, hi, hg, if_pos rfl, ite_true]
    · simp only [loadGlyph, hi, hg, hnone, if_false, ite_false]

/-- C9 witness: the surface-variant default font satisfies the
preconditions and lookup of `A` succeeds; a font with `GridWidth = 0`
panics on its resident `A`; a two-character font with a one-entry width
table panics on its second character. -/
theorem c9_witness :
    (loadGlyph defaultFontS 'A').isSome ∧
    loadGlyph gridZeroFont 'A' = none ∧
    (shortFont.CharSet.get ⟨1, by decide⟩ ∈ shortFont.CharSet ∧
      loadGlyph shortFont (shortFont.CharSet.get ⟨1, by decide⟩) = none) :=
  ⟨c9_loadGlyph_totality.1 defaultFontS 'A' (by decide) (by decide),
   c9_loadGlyph_totality.2.1 gridZeroFont 'A' rfl (by decide),
   c9_loadGlyph_totality.2.2 shortFont (by decide) (by decide) (by decide)⟩

/-- C10: a character that is present in `CharSet` but whose width-table
entry is `0` is treated by the (shared) rendering loop exactly like an
unknown character — no draw call, no cursor advance — while string
measurement still charges the horizontal letter pad for it. -/
theorem c10_zero_width_skipped (font : Font) (c : Char) (i : Nat)
    (hnl : c ≠ '\n') (hA : c.utf8Size = 1) (hg : font.GridWidth ≠ 0)
    (hi : indexRune? font.CharSet c = some i)
    (hw : font.CharWidths[i]? = some 0) :
    (∀ (rest : List Char) (x0 cx cy : Int),
        renderLoop font (c :: rest) x0 cx cy = renderLoop font rest x0 cx cy) ∧
    (∀ rest : List Char,
        getStringLen font (c :: rest) =
          (getStringLen font rest).map (fun ln => font.LetterPad + ln)) := by
  have hlg : loadGlyph font c =
      some ⟨Int.emod (i : Int) font.GridWidth * (font.CharSize.1 + 1),
            Int.ediv (i : Int) font.GridWidth * (font.CharSize.2 + 1),
            0, font.CharSize.2⟩ := by
    simp only [loadGlyph, hi, hg, hw, if_false, ite_false]
  constructor
  · intro rest x0 cx cy
    simp only [renderLoop, if_neg hnl, hlg, eq_self_iff_true, true_or, if_true]
  · intro rest
    simp only [getStringLen, firstByteRune_of_ascii hA, hi, Option.some_bind, hw]
    rcases getStringLen font rest with _ | ln
    · rfl
    · simp only [Option.map_some']
      norm_num

/-- C10 witness: in `zFont` the character `Z` is present with width 0;
it is skipped by the rendering loop without advancing the cursor, yet
measurement still adds the letter pad. -/
theorem c10_witness :
    renderLoop zFont ['Z'] 0 0 0 = renderLoop zFont [] 0 0 0 ∧
    getStringLen zFont ['Z'] =
      (getStringLen zFont []).map (fun ln => zFont.LetterPad + ln) := by
  have h := c10_zero_width_skipped zFont 'Z' 1 (by decide) (by decide)
    (by decide) (by decide) (by decide)
  exact ⟨h.1 [] 0 0 0, h.2 []⟩

theorem renderLoop_isSome (font : Font) (hg : font.GridWidth ≠ 0)
    (hw : utf8Len font.CharSet ≤ font.CharWidths.length) :
    ∀ (text : List Char) (x0 cx cy : Int), (renderLoop font text x0 cx cy).isSome := by
  intro text
  induction text with
  | nil =>
    intro x0 cx cy
    simp only [renderLoop, Option.isSome_some]
  | cons c rest ih =>
    intro x0 cx cy
    by_cases hnl : c = '\n'
    · subst hnl
      simp only [renderLoop, eq_self_iff_true, if_true]
      exact ih x0 x0 (cy + font.CharSize.2 + font.NewlinePad)
    · rcases hi : indexRune? font.CharSet c with _ | i
      · have hlg : loadGlyph font c = some ⟨0, 0, 0, 0⟩ := by
          simp only [loadGlyph, hi]
        simp only [renderLoop, if_neg hnl, hlg, eq_self_iff_true, true_or, if_true]
        exact ih x0 cx cy
      · have hlt : i < font.CharWidths.length :=
          lt_of_lt_of_le (lt_utf8Len_of_indexRune? hi) hw
        have hsome : font.CharWidths[i]? = some font.CharWidths[i] :=
          List.getElem?_eq_getElem hlt
        have hlg : loadGlyph font c =
            some ⟨Int.emod (i : Int) font.GridWidth * (font.CharSize.1 + 1),
                  Int.ediv (i : Int) font.GridWidth * (font.CharSize.2 + 1),
                  font.CharWidths[i], font.CharSize.2⟩ := by
          simp only [loadGlyph, hi, hg, hsome, if_false, ite_false]
        simp only [renderLoop, if_neg hnl, hlg, hi, Option.some_bind, hsome]
        by_cases hz : (font.CharWidths[i] : Int) = 0 ∨ font.CharSize.2 = 0
        · rw [if_pos hz]
          exact ih x0 cx cy
        · rw [if_neg hz]
          rw [Option.isSome_map']
          exact ih x0 (cx + font.CharWidths[i] + font.LetterPad) cy

theorem renderLoop_all_unknown (font : Font) :
    ∀ (text : List Char), (∀ c ∈ text, c ∉ font.CharSet) →
      ∀ x0 cx cy : Int, renderLoop font text x0 cx cy = some [] := by
  intro text
  induction text with
  | nil =>
    intro _ x0 cx cy
    rfl
  | cons c rest ih =>
    intro hall x0 cx cy
    have hrec := ih (fun d hd => hall d (List.mem_cons_of_mem c hd))
    by_cases hnl : c = '\n'
    · subst hnl
      simp only [renderLoop, eq_self_iff_true, if_true]
      exact hrec x0 x0 (cy + font.CharSize.2 + font.NewlinePad)
    · have hn : indexRune? font.CharSet c = none :=
        (indexRune?_eq_none_iff font.CharSet c).mpr
          (hall c (List.mem_cons_self c rest))
      have hlg : loadGlyph font c = some ⟨0, 0, 0, 0⟩ := by
        simp only [loadGlyph, hn]
      simp only [renderLoop, if_neg hnl, hlg, eq_self_iff_true, true_or, if_true]
      exact hrec x0 cx cy

/-- C2 counterexample: in the surface-producing variant, rendering the
single-character string made of the unknown character tab does not return
a completed surface: `getStringLen` indexes the width table at `-1`,
which panics, so the claimed guarantee fails for this variant. -/
theorem c2_counterexample : RenderString defaultFontS ['\t'] = none := by decide

/-- C2 (amended): in the immediate-draw variant, for a font with nonzero
grid width whose width table covers the charset's byte length, rendering
never panics, and a string consisting only of unknown characters produces
no glyph draw calls while still completing. -/
theorem c2_immediate_no_panic (font : Font) (text : List Char) (x y : Int)
    (hg : font.GridWidth ≠ 0)
    (hw : utf8Len font.CharSet ≤ font.CharWidths.length) :
    (renderString font text x y).isSome ∧
    ((∀ c ∈ text, c ∉ font.CharSet) → renderString font text x y = some []) :=
  ⟨renderLoop_isSome font hg hw text x x y,
   fun hall => renderLoop_all_unknown font text hall x x y⟩

/-- C2 witness: the renderer-variant default font renders the unknown
character tab without panicking and with no draw calls. -/
theorem c2_witness :
    (renderString defaultFontR ['\t'] 0 0).isSome ∧
    renderString defaultFontR ['\t'] 0 0 = some [] := by
  have h := c2_immediate_no_panic defaultFontR ['\t'] 0 0 (by decide) (by decide)
  exact ⟨h.1, h.2 (by decide)⟩

theorem indexRune?_default_seventy :
    ∀ c ∈ defaultCharSet, indexRune? defaultCharSet c = some 70 → c = 'f' := by
  decide

theorem defaultWidths_agree_off_seventy :
    ∀ i : Nat, i ≠ 70 → defaultWidthsR[i]? = defaultWidthsS[i]? := by
  intro i hne
  rcases Nat.lt_or_ge i 95 with hlt | hge
  · have hall : ∀ j ∈ List.range 95, j ≠ 70 → defaultWidthsR[j]? = defaultWidthsS[j]? := by
      decide
    exact hall i (List.mem_range.mpr hlt) hne
  · have h1 : defaultWidthsR[i]? = none :=
      List.getElem?_eq_none (le_trans (by decide) hge)
    have h2 : defaultWidthsS[i]? = none :=
      List.getElem?_eq_none (le_trans (by decide) hge)
    rw [h1, h2]

/-- C5 counterexample: the two default constructors do NOT bundle the same
literal width table — they disagree on the character `f` (advance width 5
in the renderer variant of `src/font.go`, 4 in the surface variant of
`src/unnamed/part_000`), so glyph lookup differs there. -/
theorem c5_counterexample :
    loadGlyph defaultFontR 'f' = some ⟨0, 84, 5, 11⟩ ∧
    loadGlyph defaultFontS 'f' = some ⟨0, 84, 4, 11⟩ ∧
    loadGlyph defaultFontR 'f' ≠ loadGlyph defaultFontS 'f' := by
  refine ⟨by decide, by decide, by decide⟩

/-- C5 (amended): the two variants' default fonts share the character set
and all font metrics, and glyph lookup agrees on every character other
than `f` (where the two width-table literals differ, 5 versus 4). -/
theorem c5_default_fonts_agree_off_f :
    defaultFontR.CharSet = defaultFontS.CharSet ∧
    ∀ c : Char, c ≠ 'f' → loadGlyph defaultFontR c = loadGlyph defaultFontS c := by
  refine ⟨rfl, ?_⟩
  intro c hc
  rcases hi : indexRune? defaultCharSet c with _ | i
  · have h1 : loadGlyph defaultFontR c = some ⟨0, 0, 0, 0⟩ := by
      simp only [loadGlyph, defaultFontR, hi]
    have h2 : loadGlyph defaultFontS c = some ⟨0, 0, 0, 0⟩ := by
      simp only [loadGlyph, defaultFontS, hi]
    rw [h1, h2]
  · have hne70 : i ≠ 70 := by
      intro h70
      subst h70
      exact hc (indexRune?_default_seventy c (mem_of_indexRune?_eq_some hi) hi)
    have hwid : defaultWidthsR[i]? = defaultWidthsS[i]? :=
      defaultWidths_agree_off_seventy i hne70
    show loadGlyph defaultFontR c = loadGlyph defaultFontS c
    simp only [loadGlyph, defaultFontR, defaultFontS, hi, hwid]

/-- C5 witness: glyph lookup agrees on the character `A` in the two
variants' default fonts. -/
theorem c5_witness : loadGlyph defaultFontR 'A' = loadGlyph defaultFontS 'A' :=
  c5_default_fonts_agree_off_f.2 'A' (by decide)

